import Mathlib

/-!
Verification of the Deal Filtering, Sorting & Aggregation Engine
(`src/DealAnalyticsDashboard.jsx` and the simplified variant).

The JavaScript data model is shallowly embedded: a cell value is a
dynamically-typed scalar (`JSVal`), a record ("deal") is an association
list from field names to values, and the filter / sort / aggregation
pipeline is translated function-for-function from the source.  JS numbers
are modelled as rationals (exact arithmetic; the claims under study do not
depend on floating-point rounding).  The JS special values `NaN` and
`Infinity` arising from arithmetic are collapsed into the `nan`
constructor; no claim exercises the distinction.
-/

/-- A dynamically-typed JavaScript scalar as produced by the CSV parser
(`Papa.parse` with `dynamicTyping`): a number, string, boolean, `null`
(empty cell), or `undefined` (absent property).  `nan` models the
non-finite numbers that can arise from arithmetic. -/
inductive JSVal where
  | num (q : ℚ)
  | str (s : String)
  | bool (b : Bool)
  | null
  | undef
  | nan
deriving DecidableEq

/-- JS truthiness (`ToBoolean`). -/
def truthy : JSVal → Bool
  | JSVal.num q => q != 0
  | JSVal.str s => s != ""
  | JSVal.bool b => b
  | JSVal.null => false
  | JSVal.undef => false
  | JSVal.nan => false

/-- Digit list to natural number. -/
def natOfDigits (l : List Char) : Nat :=
  l.foldl (fun n c => n * 10 + (c.toNat - 48)) 0

/-- Whitespace trimming (JS `trim`, ASCII whitespace). -/
def jsTrim (s : String) : String :=
  ⟨(((s.data.dropWhile Char.isWhitespace).reverse).dropWhile
      Char.isWhitespace).reverse⟩

/-- Split a character list at every occurrence of a separator character. -/
def splitOnChar (c : Char) : List Char → List (List Char)
  | [] => [[]]
  | x :: xs =>
    match splitOnChar c xs with
    | [] => [[]]
    | h :: t => if x == c then [] :: h :: t else (x :: h) :: t

/-- JS `s.split(sep)` for a one-character separator (also the behaviour
of `String.splitOn` there). -/
def strSplitOnChar (s : String) (c : Char) : List String :=
  (splitOnChar c s.data).map fun l => ⟨l⟩

/-- Code-unit lexicographic order on strings, as JS `<` compares two
strings. -/
def charListLt : List Char → List Char → Bool
  | _, [] => false
  | [], _ :: _ => true
  | x :: xs, y :: ys => decide (x < y) || (x == y && charListLt xs ys)

/-- JS `parseInt` in base 10: trim, optional sign, longest leading digit
run; `none` models `NaN`.  (The automatic `0x` hex prefix of `parseInt`
is not modelled; no call site can receive one.) -/
def parseIntJS (s : String) : Option Int :=
  let cs := (jsTrim s).data
  let signRest : Int × List Char :=
    match cs with
    | '-' :: r => (-1, r)
    | '+' :: r => (1, r)
    | r => (1, r)
  let digits := signRest.2.takeWhile Char.isDigit
  if digits.isEmpty then none
  else some (signRest.1 * (natOfDigits digits : Int))

/-- Mantissa value of an integer digit part and fractional digit part. -/
def mantissaVal (ip fp : List Char) : ℚ :=
  (natOfDigits ip : ℚ) + (natOfDigits fp : ℚ) / ((10 : ℚ) ^ fp.length)

/-- Exponent suffix of a JS numeric literal: `[]` means exponent 0, an
`e`/`E` followed by an optionally signed digit run consuming the rest of
the string gives that exponent, anything else is malformed. -/
def parseExpTail (cs : List Char) : Option Int :=
  match cs with
  | [] => some 0
  | e :: r =>
    if e == 'e' || e == 'E' then
      let signRest : Int × List Char :=
        match r with
        | '-' :: rr => (-1, rr)
        | '+' :: rr => (1, rr)
        | rr => (1, rr)
      let digits := signRest.2.takeWhile Char.isDigit
      if digits.isEmpty || digits.length != signRest.2.length then none
      else some (signRest.1 * (natOfDigits digits : Int))
    else none

/-- JS `ToNumber` applied to a string (`StringToNumber`): trimmed empty
string is 0, otherwise the whole string must be a signed decimal literal
with optional exponent; `none` models `NaN`.  (Hex/octal/binary literals
and the `Infinity` keyword are not modelled; no claim exercises them.) -/
def jsStringToNumber (s : String) : Option ℚ :=
  let cs := (jsTrim s).data
  if cs.isEmpty then some 0 else
  let signRest : ℚ × List Char :=
    match cs with
    | '-' :: r => (-1, r)
    | '+' :: r => (1, r)
    | r => (1, r)
  let ip := signRest.2.takeWhile Char.isDigit
  let r2 := signRest.2.drop ip.length
  match r2 with
  | '.' :: r3 =>
    let fp := r3.takeWhile Char.isDigit
    let r4 := r3.drop fp.length
    if ip.isEmpty && fp.isEmpty then none
    else (parseExpTail r4).map fun e => signRest.1 * mantissaVal ip fp * (10 : ℚ) ^ e
  | _ =>
    if ip.isEmpty then none
    else (parseExpTail r2).map fun e => signRest.1 * mantissaVal ip [] * (10 : ℚ) ^ e

/-- JS `ToNumber`; `none` models `NaN`. -/
def toNumber : JSVal → Option ℚ
  | JSVal.num q => some q
  | JSVal.str s => jsStringToNumber s
  | JSVal.bool b => some (if b then 1 else 0)
  | JSVal.null => some 0
  | JSVal.undef => none
  | JSVal.nan => none

/-- Character-wise lower-casing, as JS `toLowerCase` behaves on the ASCII
field names and values this dashboard handles. -/
def jsToLower (s : String) : String := ⟨s.data.map Char.toLower⟩

/-- Character-wise upper-casing (JS `toUpperCase` on ASCII data). -/
def jsToUpper (s : String) : String := ⟨s.data.map Char.toUpper⟩

/-- JS `String(v)` / `v.toString()`.  Integral numbers render in decimal
exactly as in JS; the rendering of non-integral rationals is abstract
(the claims only stringify integers and strings). -/
def jsToString : JSVal → String
  | JSVal.num q => if q.den = 1 then toString q.num else toString q
  | JSVal.str s => s
  | JSVal.bool b => if b then "true" else "false"
  | JSVal.null => "null"
  | JSVal.undef => "undefined"
  | JSVal.nan => "NaN"

/-- Numeric comparison of two `ToNumber` results; any `NaN` yields
`false`. -/
def numLt (oa ob : Option ℚ) : Bool :=
  match oa, ob with
  | some x, some y => decide (x < y)
  | _, _ => false

/-- JS abstract relational comparison `a < b`: lexicographic when both
operands are strings, otherwise numeric with any `NaN` yielding `false`. -/
def jsLt (a b : JSVal) : Bool :=
  match a, b with
  | JSVal.str s, JSVal.str t => charListLt s.data t.data
  | _, _ => numLt (toNumber a) (toNumber b)

/-- JS `a > b` is the relational comparison with swapped operands. -/
def jsGt (a b : JSVal) : Bool := jsLt b a

/-- JS `a || b`. -/
def jsOr (a b : JSVal) : JSVal := if truthy a then a else b

/-- JS `a + b` on scalars: string concatenation when either operand is a
string, otherwise numeric addition (`NaN` absorbing). -/
def jsAdd (a b : JSVal) : JSVal :=
  if (match a with | JSVal.str _ => true | _ => false)
     || (match b with | JSVal.str _ => true | _ => false) then
    JSVal.str (jsToString a ++ jsToString b)
  else
    match toNumber a, toNumber b with
    | some x, some y => JSVal.num (x + y)
    | _, _ => JSVal.nan

/-- JS `a / b` on scalars.  Division by zero yields `Infinity`/`NaN` in
JS, collapsed here into `nan`; every division in the source is guarded by
a non-zero length check. -/
def jsDiv (a b : JSVal) : JSVal :=
  match toNumber a, toNumber b with
  | some x, some y => if y = 0 then JSVal.nan else JSVal.num (x / y)
  | _, _ => JSVal.nan

/-- `String(v).replace(/[^0-9.-]/g, '')`: keep only digits, `.` and `-`. -/
def stripNonNumeric (s : String) : String :=
  ⟨s.data.filter fun c => c.isDigit || c == '.' || c == '-'⟩

/-- JS `parseFloat` as applied in the sort comparator (its argument has
already been stripped to digits, `.` and `-`): longest valid prefix of a
signed decimal literal; `none` models `NaN`. -/
def parseFloatJS (s : String) : Option ℚ :=
  let cs := (jsTrim s).data
  let signRest : ℚ × List Char :=
    match cs with
    | '-' :: r => (-1, r)
    | '+' :: r => (1, r)
    | r => (1, r)
  let ip := signRest.2.takeWhile Char.isDigit
  let r2 := signRest.2.drop ip.length
  let fp := match r2 with
    | '.' :: r3 => r3.takeWhile Char.isDigit
    | _ => []
  if ip.isEmpty && fp.isEmpty then none
  else some (signRest.1 * mantissaVal ip fp)

/-- Serial day number of a civil date (days since 1970-01-01), valid for
months 1–12 and an arbitrary integer day (out-of-range days act as an
offset, matching the rollover of the JS `Date` constructor). -/
def daysFromCivil (y m d : Int) : Int :=
  let y2 := if m ≤ 2 then y - 1 else y
  let era := Int.fdiv y2 400
  let yoe := y2 - era * 400
  let mp := Int.fmod (m + 9) 12
  let doy := Int.fdiv (153 * mp + 2) 5 + d - 1
  let doe := yoe * 365 + Int.fdiv yoe 4 - Int.fdiv yoe 100 + doy
  era * 146097 + doe - 719468

/-- The day denoted by the JS constructor `new Date(y, monthIndex, day)`:
years 0–99 map to 1900+y, and out-of-range month indices and days roll
over to neighbouring years/months.  (Time of day and the local-time
offset are abstracted away: dates are compared at day granularity.) -/
def jsDateFromYMD (y monthIndex day : Int) : Int :=
  let yy := if 0 ≤ y && y ≤ 99 then 1900 + y else y
  let ym := yy * 12 + monthIndex
  daysFromCivil (Int.fdiv ym 12) (Int.fmod ym 12 + 1) day

/-- Whether a year is a Gregorian leap year. -/
def isLeapYear (y : Int) : Bool :=
  (Int.emod y 4 == 0 && Int.emod y 100 != 0) || Int.emod y 400 == 0

/-- Length of a month. -/
def daysInMonth (y m : Int) : Int :=
  if m = 2 then (if isLeapYear y then 29 else 28)
  else if m = 4 ∨ m = 6 ∨ m = 9 ∨ m = 11 then 30
  else 31

/-- The day denoted by `new Date(s)` for an ISO `YYYY-MM-DD` string
(the format the date-range filter state uses); `none` models an invalid
date.  Other accepted JS date string formats are outside the dashboard's
inputs and are not modelled. -/
def isoDateToDay (s : String) : Option Int :=
  match strSplitOnChar s '-' with
  | [ys, ms, ds] =>
    if ys.length == 4 && ms.length == 2 && ds.length == 2
        && ys.data.all Char.isDigit && ms.data.all Char.isDigit
        && ds.data.all Char.isDigit then
      let y : Int := (natOfDigits ys.data : Int)
      let m : Int := (natOfDigits ms.data : Int)
      let d : Int := (natOfDigits ds.data : Int)
      if 1 ≤ m && m ≤ 12 && 1 ≤ d && d ≤ daysInMonth y m then
        some (daysFromCivil y m d)
      else none
    else none
  | _ => none

/-- One parsed CSV row: an association list from column name to value.
Absent properties read as `undefined`. -/
abbrev Deal : Type := List (String × JSVal)

/-- JS `s.includes(sub)`: substring containment. -/
def strIncludes (s sub : String) : Bool :=
  s.data.tails.any fun t => sub.data.isPrefixOf t

/-- JS property access `deal[key]`. -/
def getField (d : Deal) (k : String) : JSVal :=
  match d.find? (fun p => p.1 == k) with
  | some p => p.2
  | none => JSVal.undef

/-- The filter state of the dashboard (`filters` in the component).
`none` on a range or the date range models an absent filter; `none` on a
tri-state flag models `null` (unrestricted). -/
structure Filters where
  revenueRange : Option (ℚ × ℚ) := none
  ebitdaRange : Option (ℚ × ℚ) := none
  pursuitsRange : Option (ℚ × ℚ) := none
  verticals : List JSVal := []
  activities : List JSVal := []
  regions : List JSVal := []
  states : List JSVal := []
  includeBrokers : Option Bool := none
  includeSmartshareEnabled : Option Bool := none
  includeInboundInquiryEnabled : Option Bool := none
  dealIntentStatuses : List String := []
  dealIntentTypes : List String := []
  dateRange : Option (String × String) := none
deriving DecidableEq

/-- One numeric range block of `filteredDeals`:
`if (range && (v < range[0] || v > range[1])) return false`. -/
def rangeCheck (r : Option (ℚ × ℚ)) (v : JSVal) : Bool :=
  match r with
  | none => true
  | some (lo, hi) => !(jsLt v (JSVal.num lo) || jsGt v (JSVal.num hi))

/-- One categorical block of `filteredDeals`:
`if (set && set.length > 0 && !set.includes(v)) return false`. -/
def setCheck (allowed : List JSVal) (v : JSVal) : Bool :=
  if allowed.length > 0 then allowed.contains v else true

/-- The Account Owner (broker) block of `filteredDeals`:
excluded when `includeBrokers === false`, the owner field is truthy and
its string form lower-cases to `"broker"`. -/
def brokerCheck (f : Filters) (d : Deal) : Bool :=
  let owner := getField d "Account Owner"
  !(f.includeBrokers == some false && truthy owner
      && jsToLower (jsToString owner) == "broker")

/-- The boolean-like coercion `filteredDeals` computes for
`smartshareEnabled` and `inboundEnabled`: the value is enabled when it is
the number 1, the string "1", boolean `true`, or a string whose
upper-case form is "TRUE". -/
def boolLikeEnabled (v : JSVal) : Bool :=
  v == JSVal.num 1 || v == JSVal.str "1" || v == JSVal.bool true
    || (match v with
        | JSVal.str s => jsToUpper s == "TRUE"
        | _ => false)

/-- The boolean-like coercion of the simplified variant
(`src/unnamed/part_000`): `val === 1 || val === "1" || val === true`,
with no case-insensitive "TRUE" clause. -/
def boolLikeEnabledAlt (v : JSVal) : Bool :=
  v == JSVal.num 1 || v == JSVal.str "1" || v == JSVal.bool true

/-- The SmartShare / Inbound Inquiry block of `filteredDeals`: when both
filter states are `true` the record needs either flag; otherwise each
non-null filter state must equal the corresponding computed flag. -/
def flagsCheck (f : Filters) (d : Deal) : Bool :=
  let ss := boolLikeEnabled (getField d "SmartShare Enabled?")
  let inb := boolLikeEnabled (getField d "Inbound Inquiry Enabled?")
  if f.includeSmartshareEnabled == some true
      && f.includeInboundInquiryEnabled == some true then
    !(!ss && !inb)
  else
    !(f.includeSmartshareEnabled.isSome
        && (some ss != f.includeSmartshareEnabled))
    && !(f.includeInboundInquiryEnabled.isSome
        && (some inb != f.includeInboundInquiryEnabled))

/-- The resolved status value of the Deal Intent Status block:
`deal['Deal Intent Status'] || deal['Deal Intent'] || ''`. -/
def statusFieldOf (d : Deal) : JSVal :=
  jsOr (jsOr (getField d "Deal Intent Status") (getField d "Deal Intent"))
    (JSVal.str "")

/-- The Deal Intent Status block of `filteredDeals`: with a non-empty
status list, some listed status must equal the resolved status value
case-insensitively. -/
def statusCheck (f : Filters) (d : Deal) : Bool :=
  if f.dealIntentStatuses.length > 0 then
    f.dealIntentStatuses.any fun s =>
      jsToLower (jsToString (statusFieldOf d)) == jsToLower s
  else true

/-- The Deal Intent Type block of `filteredDeals`: with a non-empty type
list, some listed type must occur case-insensitively as a substring of
`deal['Deal Intent'] || ''`. -/
def typeCheck (f : Filters) (d : Deal) : Bool :=
  if f.dealIntentTypes.length > 0 then
    let typeField := jsOr (getField d "Deal Intent") (JSVal.str "")
    f.dealIntentTypes.any fun t =>
      strIncludes (jsToLower (jsToString typeField)) (jsToLower t)
  else true

/-- The date string source of the date block:
`deal['Market Date'] || deal['Market Date (Date)']`. -/
def marketDateVal (d : Deal) : JSVal :=
  jsOr (getField d "Market Date") (getField d "Market Date (Date)")

/-- The deal date the date block computes from a field value: a string
splitting on `/` into exactly three parts, each with a parseable integer
prefix, yields `new Date(year, month-1, day)` (with rollover); anything
else — including the `TypeError` a non-string would raise inside the
`try` block — yields `none` and leaves the record unrestricted. -/
def dealDateOf (v : JSVal) : Option Int :=
  match v with
  | JSVal.str ds =>
    match strSplitOnChar ds '/' with
    | [p0, p1, p2] =>
      match parseIntJS p0, parseIntJS p1, parseIntJS p2 with
      | some m, some dd, some y => some (jsDateFromYMD y (m - 1) dd)
      | _, _, _ => none
    | _ => none
  | _ => none

/-- The date block of `filteredDeals`: with a truthy date field and a
configured range, a validly computed deal date excludes the record when
it lies before `new Date(start)` or after `new Date(end)`. -/
def dateCheck (f : Filters) (d : Deal) : Bool :=
  let v := marketDateVal d
  match f.dateRange with
  | none => true
  | some (s, e) =>
    if truthy v then
      match dealDateOf v with
      | some dd =>
        let ltStart := match isoDateToDay s with
          | some sd => decide (dd < sd)
          | none => false
        let gtEnd := match isoDateToDay e with
          | some ed => decide (ed < dd)
          | none => false
        !(ltStart || gtEnd)
      | none => true
    else true

/-- The per-record predicate of `filteredDeals`, the conjunction of the
filter blocks in source order. -/
def dealPasses (f : Filters) (d : Deal) : Bool :=
  rangeCheck f.revenueRange (getField d "Revenue")
    && rangeCheck f.ebitdaRange (getField d "EBITDA")
    && rangeCheck f.pursuitsRange (getField d "Total Pursuits")
    && setCheck f.verticals (getField d "Primary Supply Vertical")
    && setCheck f.activities (getField d "Primary Supply Activity")
    && setCheck f.regions (getField d "Region")
    && setCheck f.states (getField d "State/Province")
    && brokerCheck f d
    && flagsCheck f d
    && statusCheck f d
    && typeCheck f d
    && dateCheck f d

/-- `filteredDeals`: the deals surviving every filter block. -/
def filteredDeals (f : Filters) (l : List Deal) : List Deal :=
  l.filter (dealPasses f)

/-- The calendar day the `sortedDeals` date branch computes for one
value: its string form must split on `/` into exactly three parts with
parseable integer prefixes, giving `new Date(year, month-1, day)` with
rollover; `none` models the failed length check or an invalid date. -/
def sortDateOf (v : JSVal) : Option Int :=
  match strSplitOnChar (jsToString v) '/' with
  | [p0, p1, p2] =>
    match parseIntJS p0, parseIntJS p1, parseIntJS p2 with
    | some m, some dd, some y => some (jsDateFromYMD y (m - 1) dd)
    | _, _, _ => none
  | _ => none

/-- The comparator of `sortedDeals` for a sort key and direction
(`direction` is the string `"asc"` or `"desc"`, as in `sortConfig`).
An empty key compares everything equal.  Otherwise, in source order:
a key containing "date" with two truthy values that both carry a valid
slash date compares the rolled-over calendar days; else two values whose
stripped string forms parse as numbers compare numerically; else the raw
values compare with the generic relational operators.  The returned
number is only ever used through its sign.  (The date leaf returns a day
difference rather than the JS millisecond difference: same sign.) -/
def sortCompare (key direction : String) (a b : Deal) : ℚ :=
  if key == "" then 0
  else
    let valA := getField a key
    let valB := getField b key
    let dateCmp : Option ℚ :=
      if strIncludes (jsToLower key) "date" && truthy valA && truthy valB then
        match sortDateOf valA, sortDateOf valB with
        | some dA, some dB =>
          some (if direction == "asc" then (dA : ℚ) - (dB : ℚ)
                else (dB : ℚ) - (dA : ℚ))
        | _, _ => none
      else none
    match dateCmp with
    | some r => r
    | none =>
      match parseFloatJS (stripNonNumeric (jsToString valA)),
            parseFloatJS (stripNonNumeric (jsToString valB)) with
      | some numA, some numB =>
        if direction == "asc" then numA - numB else numB - numA
      | _, _ =>
        if jsLt valA valB then (if direction == "asc" then -1 else 1)
        else if jsLt valB valA then (if direction == "asc" then 1 else -1)
        else 0

/-- Insert an element into an already-sorted accumulator: it goes in
front of the first element it compares strictly below, hence after any
element it ties with — the placement a stable sort gives the
later-arriving element. -/
def insertSorted {α : Type} (c : α → α → ℚ) (x : α) : List α → List α
  | [] => [x]
  | y :: ys => if c x y < 0 then x :: y :: ys else y :: insertSorted c x ys

/-- Tail of the stable sort: fold the remaining elements into the sorted	
accumulator in their original order. -/
def jsSortGo {α : Type} (c : α → α → ℚ) (acc : List α) : List α → List α
  | [] => acc
  | x :: xs => jsSortGo c (insertSorted c x acc) xs

/-- `Array.prototype.sort` with a numeric comparator, as a stable
insertion sort: for the consistent comparators the dashboard builds this
is exactly the ECMAScript-specified result (sorted, ties in original
order). -/
def jsSort {α : Type} (c : α → α → ℚ) (l : List α) : List α :=
  jsSortGo c [] l

/-- `sortedDeals`: a sorted copy of the filtered deals under the
`sortConfig` comparator. -/
def sortedDeals (key direction : String) (l : List Deal) : List Deal :=
  jsSort (sortCompare key direction) l

/-- `counts[key] = (counts[key] || 0) + 1` over a JS object in property
insertion order. -/
def bumpCount : List (String × Nat) → String → List (String × Nat)
  | [], k => [(k, 1)]
  | (k', n) :: rest, k =>
    if k' == k then (k', n + 1) :: rest else (k', n) :: bumpCount rest k

/-- One bar of the chart data: `{ name, value, percentage }`. -/
structure ChartEntry where
  name : String
  value : Nat
  percentage : ℚ
deriving DecidableEq

/-- `verticalChartData`: for a non-empty filtered list, count the deals
per truthy "Primary Supply Vertical" value (object keys are strings, so
the raw value is stringified), attach `percentage = count / total × 100`,
and sort by descending count. -/
def verticalChartData (l : List Deal) : List ChartEntry :=
  if l.length == 0 then []
  else
    let counts := l.foldl (fun acc d =>
      let v := getField d "Primary Supply Vertical"
      if truthy v then bumpCount acc (jsToString v) else acc) []
    jsSort (fun a b => (b.value : ℚ) - (a.value : ℚ))
      (counts.map fun p =>
        { name := p.1, value := p.2
          percentage := ((p.2 : ℚ) / (l.length : ℚ)) * 100 })

/-- Sum of the percentages attached to a chart data sequence. -/
def percSum (l : List ChartEntry) : ℚ :=
  (l.map ChartEntry.percentage).sum

/-- The headline summary object. -/
structure Summary where
  totalDeals : Nat
  totalRevenue : JSVal
  avgRevenue : JSVal
  totalEBITDA : JSVal
  avgEBITDA : JSVal
deriving DecidableEq

/-- `reduce((sum, deal) => sum + (deal[key] || 0), 0)`. -/
def sumField (l : List Deal) (key : String) : JSVal :=
  l.foldl (fun s d => jsAdd s (jsOr (getField d key) (JSVal.num 0))) (JSVal.num 0)

/-- `summaryStats`: `null` for an empty filtered list, otherwise the
count, totals and averages of Revenue and EBITDA with falsy fields
coerced to 0. -/
def summaryStats (l : List Deal) : Option Summary :=
  if l.length == 0 then none
  else some
    { totalDeals := l.length
      totalRevenue := sumField l "Revenue"
      avgRevenue := jsDiv (sumField l "Revenue") (JSVal.num (l.length : ℚ))
      totalEBITDA := sumField l "EBITDA"
      avgEBITDA := jsDiv (sumField l "EBITDA") (JSVal.num (l.length : ℚ)) }

theorem insertSorted_perm {α : Type} (c : α → α → ℚ) (x : α) (l : List α) :
    (insertSorted c x l).Perm (x :: l) := by
  induction l with
  | nil => exact List.Perm.refl _
  | cons y ys ih =>
    unfold insertSorted
    by_cases h : c x y < 0
    · rw [if_pos h]
    · rw [if_neg h]
      exact (List.Perm.cons y ih).trans (List.Perm.swap x y ys)

theorem mem_insertSorted {α : Type} (c : α → α → ℚ) (x z : α) (l : List α) :
    z ∈ insertSorted c x l ↔ z = x ∨ z ∈ l := by
  rw [(insertSorted_perm c x l).mem_iff, List.mem_cons]

theorem jsSortGo_perm {α : Type} (c : α → α → ℚ) :
    ∀ (rest acc : List α), (jsSortGo c acc rest).Perm (rest ++ acc) := by
  intro rest
  induction rest with
  | nil => intro acc; exact List.Perm.refl _
  | cons x xs ih =>
    intro acc
    show (jsSortGo c (insertSorted c x acc) xs).Perm ((x :: xs) ++ acc)
    exact (ih (insertSorted c x acc)).trans
      ((List.Perm.append_left xs (insertSorted_perm c x acc)).trans
        List.perm_middle)

theorem jsSort_perm {α : Type} (c : α → α → ℚ) (l : List α) :
    (jsSort c l).Perm l := by
  have h := jsSortGo_perm c l []
  rwa [List.append_nil] at h

theorem insertSorted_pairwise {α : Type} (c : α → α → ℚ) (P : α → Prop)
    (hdec : ∀ u v, P u → P v → u ≠ v → (c u v < 0 ∨ c v u < 0))
    (htr : ∀ u v w, P u → P v → P w → c u v < 0 → c v w < 0 → c u w < 0)
    (x : α) (hx : P x) :
    ∀ acc : List α, (∀ z ∈ acc, P z) → (∀ z ∈ acc, x ≠ z) →
      acc.Pairwise (fun u v => c u v < 0) →
      (insertSorted c x acc).Pairwise (fun u v => c u v < 0) := by
  intro acc
  induction acc with
  | nil =>
    intro _ _ _
    simp [insertSorted]
  | cons y ys ih =>
    intro hP hne hpw
    obtain ⟨hy, hys⟩ := List.pairwise_cons.mp hpw
    unfold insertSorted
    by_cases h : c x y < 0
    · rw [if_pos h]
      refine List.Pairwise.cons ?_ (List.Pairwise.cons hy hys)
      intro z hz
      rcases List.mem_cons.mp hz with rfl | hz
      · exact h
      · exact htr x y z hx (hP y (by simp)) (hP z (by simp [hz])) h (hy z hz)
    · rw [if_neg h]
      refine List.Pairwise.cons ?_
        (ih (fun z hz => hP z (by simp [hz])) (fun z hz => hne z (by simp [hz])) hys)
      intro z hz
      rcases (mem_insertSorted c x z ys).mp hz with rfl | hz
      · rcases hdec z y hx (hP y (by simp)) (hne y (by simp)) with h1 | h1
        · exact absurd h1 h
        · exact h1
      · exact hy z hz

theorem jsSortGo_pairwise {α : Type} (c : α → α → ℚ) (P : α → Prop)
    (hdec : ∀ u v, P u → P v → u ≠ v → (c u v < 0 ∨ c v u < 0))
    (htr : ∀ u v w, P u → P v → P w → c u v < 0 → c v w < 0 → c u w < 0) :
    ∀ (rest acc : List α), (∀ z ∈ rest, P z) → (∀ z ∈ acc, P z) →
      (rest ++ acc).Nodup → acc.Pairwise (fun u v => c u v < 0) →
      (jsSortGo c acc rest).Pairwise (fun u v => c u v < 0) := by
  intro rest
  induction rest with
  | nil => intro acc _ _ _ hpw; exact hpw
  | cons x xs ih =>
    intro acc hrest hacc hnd hpw
    have hxP : P x := hrest x (by simp)
    have hndtail : (x :: (xs ++ acc)).Nodup := hnd
    have hxnot : x ∉ xs ++ acc := (List.nodup_cons.mp hndtail).1
    show (jsSortGo c (insertSorted c x acc) xs).Pairwise _
    refine ih (insertSorted c x acc) (fun z hz => hrest z (by simp [hz])) ?_ ?_ ?_
    · intro z hz
      rcases (mem_insertSorted c x z acc).mp hz with rfl | hz
      · exact hxP
      · exact hacc z hz
    · have hperm : (xs ++ insertSorted c x acc).Perm (x :: (xs ++ acc)) :=
        (List.Perm.append_left xs (insertSorted_perm c x acc)).trans List.perm_middle
      exact (hperm.symm).nodup hndtail
    · refine insertSorted_pairwise c P hdec htr x hxP acc hacc ?_ hpw
      intro z hz h
      exact hxnot (by simp [h ▸ hz])

theorem jsSort_pairwise {α : Type} (c : α → α → ℚ) (l : List α)
    (hnd : l.Nodup)
    (hdec : ∀ u ∈ l, ∀ v ∈ l, u ≠ v → (c u v < 0 ∨ c v u < 0))
    (htr : ∀ u ∈ l, ∀ v ∈ l, ∀ w ∈ l, c u v < 0 → c v w < 0 → c u w < 0) :
    (jsSort c l).Pairwise (fun u v => c u v < 0) := by
  refine jsSortGo_pairwise c (fun z => z ∈ l)
    (fun u v hu hv huv => hdec u hu v hv huv)
    (fun u v w hu hv hw => htr u hu v hv w hw)
    l [] (fun z hz => hz) (by simp) (by simpa using hnd) (by simp)

theorem pairwise_perm_eq {α : Type} {R : α → α → Prop} :
    ∀ (l1 l2 : List α), (∀ x ∈ l1, ∀ y ∈ l1, R x y → R y x → False) →
      l1.Perm l2 → l1.Pairwise R → l2.Pairwise R → l1 = l2 := by
  intro l1
  induction l1 with
  | nil => intro l2 _ hp _ _; exact hp.nil_eq
  | cons a t1 ih =>
    intro l2 hasym hp hpw1 hpw2
    cases l2 with
    | nil => exact absurd hp.symm.nil_eq (by simp)
    | cons b t2 =>
      by_cases hab : a = b
      · subst hab
        have ht : t1.Perm t2 := hp.cons_inv
        have := ih t2
          (fun x hx y hy => hasym x (by simp [hx]) y (by simp [hy]))
          ht (List.pairwise_cons.mp hpw1).2 (List.pairwise_cons.mp hpw2).2
        rw [this]
      · exfalso
        have ha2 : a ∈ b :: t2 := hp.mem_iff.mp (by simp)
        have hat2 : a ∈ t2 := by
          rcases List.mem_cons.mp ha2 with h | h
          · exact absurd h hab
          · exact h
        have hb1 : b ∈ a :: t1 := hp.symm.mem_iff.mp (by simp)
        have hbt1 : b ∈ t1 := by
          rcases List.mem_cons.mp hb1 with h | h
          · exact absurd h.symm hab
          · exact h
        exact hasym a (by simp) b (by simp [hbt1])
          ((List.pairwise_cons.mp hpw1).1 b hbt1)
          ((List.pairwise_cons.mp hpw2).1 a hat2)

/-- Sorting with the pointwise negation of a comparator that is
antisymmetric, tie-free and transitive over a duplicate-free list yields
exactly the reverse of sorting with the comparator itself. -/
theorem jsSort_neg_reverse {α : Type} (c : α → α → ℚ) (l : List α)
    (hnd : l.Nodup)
    (hanti : ∀ x ∈ l, ∀ y ∈ l, c x y = -(c y x))
    (hne : ∀ x ∈ l, ∀ y ∈ l, x ≠ y → c x y ≠ 0)
    (htr : ∀ x ∈ l, ∀ y ∈ l, ∀ z ∈ l, c x y < 0 → c y z < 0 → c x z < 0) :
    jsSort (fun a b => -(c a b)) l = (jsSort c l).reverse := by
  have hdec : ∀ u ∈ l, ∀ v ∈ l, u ≠ v → (c u v < 0 ∨ c v u < 0) := by
    intro u hu v hv huv
    rcases lt_trichotomy (c u v) 0 with h | h | h
    · exact Or.inl h
    · exact absurd h (hne u hu v hv huv)
    · right
      have := hanti u hu v hv
      linarith
  have hdec' : ∀ u ∈ l, ∀ v ∈ l, u ≠ v → (-(c u v) < 0 ∨ -(c v u) < 0) := by
    intro u hu v hv huv
    rcases hdec v hv u hu (fun h => huv h.symm) with h | h
    · left; have := hanti u hu v hv; linarith
    · right; have := hanti v hv u hu; linarith
  have htr' : ∀ u ∈ l, ∀ v ∈ l, ∀ w ∈ l,
      -(c u v) < 0 → -(c v w) < 0 → -(c u w) < 0 := by
    intro u hu v hv w hw h1 h2
    have e1 := hanti u hu v hv
    have e2 := hanti v hv w hw
    have e3 := hanti u hu w hw
    have : c w v < 0 := by linarith
    have : c v u < 0 := by linarith
    have := htr w hw v hv u hu (by linarith) (by linarith)
    linarith
  have s1 : (jsSort c l).Pairwise (fun u v => c u v < 0) :=
    jsSort_pairwise c l hnd hdec htr
  have s2 : (jsSort (fun a b => -(c a b)) l).Pairwise
      (fun u v => -(c u v) < 0) :=
    jsSort_pairwise (fun a b => -(c a b)) l hnd hdec' htr'
  have p1 : (jsSort (fun a b => -(c a b)) l).Perm l := jsSort_perm _ l
  have p2 : ((jsSort c l).reverse).Perm l :=
    (List.reverse_perm _).trans (jsSort_perm c l)
  have s1r : ((jsSort c l).reverse).Pairwise (fun u v => -(c u v) < 0) := by
    rw [List.pairwise_reverse]
    refine s1.imp_of_mem ?_
    intro u v hu hv h
    have hul : u ∈ l := ((jsSort_perm c l).mem_iff).mp hu
    have hvl : v ∈ l := ((jsSort_perm c l).mem_iff).mp hv
    have := hanti v hvl u hul
    linarith
  refine pairwise_perm_eq _ _ ?_ (p1.trans p2.symm) s2 s1r
  intro x hx y hy h1 h2
  have hxl : x ∈ l := p1.mem_iff.mp hx
  have hyl : y ∈ l := p1.mem_iff.mp hy
  have := hanti x hxl y hyl
  linarith

theorem insertSorted_of_zero {α : Type} (c : α → α → ℚ)
    (h : ∀ a b, c a b = 0) (x : α) :
    ∀ l : List α, insertSorted c x l = l ++ [x] := by
  intro l
  induction l with
  | nil => rfl
  | cons y ys ih =>
    unfold insertSorted
    rw [if_neg (by rw [h]; exact lt_irrefl 0), ih]
    rfl

theorem jsSortGo_of_zero {α : Type} (c : α → α → ℚ)
    (h : ∀ a b, c a b = 0) :
    ∀ (rest acc : List α), jsSortGo c acc rest = acc ++ rest := by
  intro rest
  induction rest with
  | nil => intro acc; simp [jsSortGo]
  | cons x xs ih =>
    intro acc
    show jsSortGo c (insertSorted c x acc) xs = acc ++ x :: xs
    rw [ih, insertSorted_of_zero c h, List.append_assoc]
    rfl

theorem jsSort_of_zero {α : Type} (c : α → α → ℚ)
    (h : ∀ a b, c a b = 0) (l : List α) : jsSort c l = l := by
  unfold jsSort
  rw [jsSortGo_of_zero c h l []]
  rfl

theorem numericLexNeg (vA vB : JSVal) :
    (match parseFloatJS (stripNonNumeric (jsToString vA)),
           parseFloatJS (stripNonNumeric (jsToString vB)) with
     | some numA, some numB => numB - numA
     | _, _ =>
       if jsLt vA vB = true then (1 : ℚ)
       else if jsLt vB vA = true then -1 else 0) =
    -(match parseFloatJS (stripNonNumeric (jsToString vA)),
            parseFloatJS (stripNonNumeric (jsToString vB)) with
      | some numA, some numB => numA - numB
      | _, _ =>
        if jsLt vA vB = true then (-1 : ℚ)
        else if jsLt vB vA = true then 1 else 0) := by
  rcases parseFloatJS (stripNonNumeric (jsToString vA)) with _ | na <;>
  rcases parseFloatJS (stripNonNumeric (jsToString vB)) with _ | nb <;>
  simp <;> try ring
  all_goals split_ifs <;> norm_num

/-- Flipping the sort direction negates the comparator pointwise: each
leaf of `sortCompare` returns the sign-flipped value under `"desc"`. -/
theorem sortCompare_desc_neg (key : String) (a b : Deal) :
    sortCompare key "desc" a b = -(sortCompare key "asc" a b) := by
  unfold sortCompare
  by_cases hk : (key == "") = true
  · rw [if_pos hk, if_pos hk]; ring
  · rw [if_neg hk, if_neg hk]
    by_cases hc : (strIncludes (jsToLower key) "date"
        && truthy (getField a key) && truthy (getField b key)) = true
    · simp only [hc, eq_self_iff_true, if_true]
      rcases hda : sortDateOf (getField a key) with _ | dA <;>
      rcases hdb : sortDateOf (getField b key) with _ | dB <;>
      try simp <;>
      try ring <;>
      try exact numericLexNeg (getField a key) (getField b key)
    · simp only [Bool.not_eq_true] at hc
      simp only [hc, Bool.false_eq_true, if_false]
      exact numericLexNeg (getField a key) (getField b key)

theorem numLt_asymm (oa ob : Option ℚ)
    (h1 : numLt oa ob = true) (h2 : numLt ob oa = true) : False := by
  rcases oa with _ | x <;> rcases ob with _ | y <;> simp_all [numLt]
  linarith

theorem charListLt_asymm :
    ∀ (x y : List Char), charListLt x y = true → charListLt y x = true → False
  | [], [] => by simp [charListLt]
  | _ :: _, [] => by simp [charListLt]
  | [], _ :: _ => by simp [charListLt]
  | x :: xs, y :: ys => by
    simp only [charListLt, Bool.or_eq_true, Bool.and_eq_true,
      decide_eq_true_eq, beq_iff_eq]
    rintro (h1 | ⟨rfl, h1⟩) (h2 | ⟨e2, h2⟩)
    · exact absurd h2 (lt_asymm h1)
    · exact absurd (e2 ▸ h1) (lt_irrefl y)
    · exact absurd h2 (lt_irrefl x)
    · exact charListLt_asymm xs ys h1 h2

theorem jsLt_asymm (a b : JSVal) (h1 : jsLt a b = true) (h2 : jsLt b a = true) :
    False := by
  unfold jsLt at h1 h2
  cases a <;> cases b <;> dsimp only [] at h1 h2 <;>
    first
      | exact charListLt_asymm _ _ h1 h2
      | exact numLt_asymm _ _ h1 h2

theorem numericLexAntisymm (vA vB : JSVal) :
    (match parseFloatJS (stripNonNumeric (jsToString vA)),
           parseFloatJS (stripNonNumeric (jsToString vB)) with
     | some numA, some numB => numA - numB
     | _, _ =>
       if jsLt vA vB = true then (-1 : ℚ)
       else if jsLt vB vA = true then 1 else 0) =
    -(match parseFloatJS (stripNonNumeric (jsToString vB)),
            parseFloatJS (stripNonNumeric (jsToString vA)) with
      | some numA, some numB => numA - numB
      | _, _ =>
        if jsLt vB vA = true then (-1 : ℚ)
        else if jsLt vA vB = true then 1 else 0) := by
  rcases parseFloatJS (stripNonNumeric (jsToString vA)) with _ | na <;>
  rcases parseFloatJS (stripNonNumeric (jsToString vB)) with _ | nb <;>
  simp <;> try ring
  all_goals (split_ifs <;> try norm_num)
  all_goals (exfalso; apply jsLt_asymm <;> assumption)

/-- The ascending comparator is pointwise antisymmetric: swapping the two
records negates the result in every branch. -/
theorem sortCompare_asc_antisymm (key : String) (a b : Deal) :
    sortCompare key "asc" a b = -(sortCompare key "asc" b a) := by
  unfold sortCompare
  by_cases hk : (key == "") = true
  · rw [if_pos hk, if_pos hk]; ring
  · rw [if_neg hk, if_neg hk]
    by_cases hcab : (strIncludes (jsToLower key) "date"
        && truthy (getField a key) && truthy (getField b key)) = true <;>
    by_cases hcba : (strIncludes (jsToLower key) "date"
        && truthy (getField b key) && truthy (getField a key)) = true
    · simp only [hcab, hcba, eq_self_iff_true, if_true]
      rcases hda : sortDateOf (getField a key) with _ | dA <;>
      rcases hdb : sortDateOf (getField b key) with _ | dB <;>
      try simp <;>
      try ring <;>
      try exact numericLexAntisymm (getField a key) (getField b key)
    · exfalso
      simp only [Bool.and_eq_true] at hcab
      simp [Bool.and_eq_true, hcab.1.1, hcab.1.2, hcab.2] at hcba
    · exfalso
      simp only [Bool.and_eq_true] at hcba
      simp [Bool.and_eq_true, hcba.1.1, hcba.1.2, hcba.2] at hcab
    · simp only [Bool.not_eq_true] at hcab hcba
      simp only [hcab, hcba, Bool.false_eq_true, if_false]
      exact numericLexAntisymm (getField a key) (getField b key)

/-- Claim C4, counterexample: with two distinct records tying on the sort
key (both Name "x"), both directions keep them in original order (stable
sort, ties compare 0 in either direction), so the descending result is
not the reverse of the ascending one. -/
theorem c4_counterexample :
    sortedDeals "Name" "desc"
        [[("Name", JSVal.str "x"), ("ID", JSVal.str "a")],
         [("Name", JSVal.str "x"), ("ID", JSVal.str "b")]]
      ≠ (sortedDeals "Name" "asc"
        [[("Name", JSVal.str "x"), ("ID", JSVal.str "a")],
         [("Name", JSVal.str "x"), ("ID", JSVal.str "b")]]).reverse := by
  decide

/-- Claim C4 (amended): on a duplicate-free record list over which the
ascending comparator for the key is tie-free and transitive, sorting
descending yields exactly the reverse of sorting ascending.  With ties
the two directions both preserve original relative order, so the results
need not be reverses. -/
theorem c4_sorted_desc_reverse (key : String) (l : List Deal)
    (hnd : l.Nodup)
    (hne : ∀ x ∈ l, ∀ y ∈ l, x ≠ y → sortCompare key "asc" x y ≠ 0)
    (htr : ∀ x ∈ l, ∀ y ∈ l, ∀ z ∈ l,
      sortCompare key "asc" x y < 0 → sortCompare key "asc" y z < 0 →
      sortCompare key "asc" x z < 0) :
    sortedDeals key "desc" l = (sortedDeals key "asc" l).reverse := by
  unfold sortedDeals
  have hfun : sortCompare key "desc" =
      fun a b => -(sortCompare key "asc" a b) := by
    funext x y
    exact sortCompare_desc_neg key x y
  rw [hfun]
  exact jsSort_neg_reverse (sortCompare key "asc") l hnd
    (fun x _ y _ => sortCompare_asc_antisymm key x y) hne htr

theorem c4_sorted_desc_reverse_witness :
    sortedDeals "Name" "desc"
        [[("Name", JSVal.str "b")], [("Name", JSVal.str "a")]]
      = (sortedDeals "Name" "asc"
        [[("Name", JSVal.str "b")], [("Name", JSVal.str "a")]]).reverse :=
  c4_sorted_desc_reverse "Name"
    [[("Name", JSVal.str "b")], [("Name", JSVal.str "a")]]
    (by decide) (by decide) (by decide)

/-- Claim C6: with an empty sort key the comparator returns 0 on every
pair, so the stable sort returns the input list unchanged. -/
theorem c6_sort_empty_key (direction : String) (l : List Deal) :
    sortedDeals "" direction l = l := by
  unfold sortedDeals
  exact jsSort_of_zero _ (fun x y => by simp [sortCompare]) l

theorem jsLt_num_right_of_nan (v : JSVal) (x : ℚ)
    (hv : toNumber v = none) : jsLt v (JSVal.num x) = false := by
  unfold jsLt
  cases v <;> simp_all [numLt, toNumber]

theorem jsLt_num_left_of_nan (x : ℚ) (v : JSVal)
    (hv : toNumber v = none) : jsLt (JSVal.num x) v = false := by
  unfold jsLt
  cases v <;> simp_all [numLt, toNumber]

theorem rangeCheck_of_nan (r : Option (ℚ × ℚ)) (v : JSVal)
    (hv : toNumber v = none) : rangeCheck r v = true := by
  rcases r with _ | ⟨lo, hi⟩
  · rfl
  · show (!(jsLt v (JSVal.num lo) || jsLt (JSVal.num hi) v)) = true
    rw [jsLt_num_right_of_nan v lo hv, jsLt_num_left_of_nan hi v hv]
    rfl

/-- Claim C1, counterexample: the deal `[]` has no Revenue field, the
revenue range minimum is 1 > 0, and yet the record passes the filter —
`undefined < 1` and `undefined > 10` are both false in JS, so a missing
field is not compared as 0. -/
theorem c1_counterexample :
    (0 : ℚ) < 1
      ∧ dealPasses { revenueRange := some (1, 10) } [] = true := by
  constructor
  · norm_num
  · decide

/-- Claim C1 (amended): a record whose Revenue, EBITDA and Total Pursuits
values all coerce to NaN (missing field, or a non-numeric string) is
never restricted by the numeric range filters at all — both range
comparisons are NaN comparisons yielding false, so the record passes them
regardless of the configured bounds (even a minimum above 0).  Only a
`null` field coerces to 0 and is excluded under a positive minimum. -/
theorem c1_nan_ranges_unrestricted (f : Filters) (d : Deal)
    (hR : toNumber (getField d "Revenue") = none)
    (hE : toNumber (getField d "EBITDA") = none)
    (hP : toNumber (getField d "Total Pursuits") = none) :
    dealPasses f d =
      dealPasses { f with revenueRange := none, ebitdaRange := none,
                          pursuitsRange := none } d := by
  unfold dealPasses
  rw [rangeCheck_of_nan f.revenueRange _ hR,
      rangeCheck_of_nan f.ebitdaRange _ hE,
      rangeCheck_of_nan f.pursuitsRange _ hP]
  rfl

theorem c1_nan_ranges_unrestricted_witness :
    dealPasses { revenueRange := some (1, 10), ebitdaRange := some (2, 3),
                 pursuitsRange := some (5, 9) }
        [("Revenue", JSVal.str "N/A")]
      = dealPasses { revenueRange := none, ebitdaRange := none,
                     pursuitsRange := none }
        [("Revenue", JSVal.str "N/A")] :=
  c1_nan_ranges_unrestricted _ _ (by decide) (by decide) (by decide)

/-- Claim C3, counterexample: "13/40/2024" does not denote a calendar
date, but `new Date(2024, 12, 40)` rolls over to 9 February 2025, a
valid date outside the configured range — so the record IS excluded by
the date filter, contradicting "never excludes". -/
theorem c3_counterexample :
    dealPasses { dateRange := some ("2024-01-01", "2024-01-10") }
      [("Market Date", JSVal.str "13/40/2024")] = false := by
  decide

/-- Claim C3 (amended): only a date value whose string form fails the
shape check — not exactly three `/`-separated parts, or a part with no
parseable integer prefix (or a non-string value, whose `split` call
throws into the swallowed catch) — degrades to unrestricted; a
three-part all-numeric string always yields a date by rollover and is
range-compared normally. -/
theorem c3_shape_invalid_date_unrestricted (f : Filters) (d : Deal)
    (h : dealDateOf (marketDateVal d) = none) :
    dealPasses f d = dealPasses { f with dateRange := none } d := by
  have h1 : dateCheck f d = true := by
    unfold dateCheck
    rcases f.dateRange with _ | ⟨s, e⟩
    · rfl
    · by_cases ht : truthy (marketDateVal d) = true
      · simp [ht, h]
      · simp only [Bool.not_eq_true] at ht
        simp [ht]
  have h2 : dateCheck { f with dateRange := none } d = true := rfl
  unfold dealPasses
  rw [h1, h2]
  rfl

theorem c3_shape_invalid_date_unrestricted_witness :
    dealPasses { dateRange := some ("2024-01-01", "2024-01-10") }
        [("Market Date", JSVal.str "5-Jan-2024")]
      = dealPasses { dateRange := none }
        [("Market Date", JSVal.str "5-Jan-2024")] :=
  c3_shape_invalid_date_unrestricted _ _ (by decide)

/-- Claim C2: when both tri-state flag filters are `true` the record
passes the flag block iff either computed flag is enabled (OR-coupling);
in every other combination each non-null flag filter must independently
equal the corresponding computed flag, and a null filter imposes no
constraint (`Option.all`). -/
theorem c2_flag_semantics (f : Filters) (d : Deal) :
    flagsCheck f d =
      (if f.includeSmartshareEnabled = some true
          ∧ f.includeInboundInquiryEnabled = some true then
        boolLikeEnabled (getField d "SmartShare Enabled?")
          || boolLikeEnabled (getField d "Inbound Inquiry Enabled?")
      else
        (f.includeSmartshareEnabled.all fun b =>
            boolLikeEnabled (getField d "SmartShare Enabled?") == b)
          && (f.includeInboundInquiryEnabled.all fun b =>
            boolLikeEnabled (getField d "Inbound Inquiry Enabled?") == b)) := by
  rcases hss : f.includeSmartshareEnabled with _ | b1 <;>
  rcases hin : f.includeInboundInquiryEnabled with _ | b2 <;>
  (try cases b1) <;>
  (try cases b2) <;>
  cases hA : boolLikeEnabled (getField d "SmartShare Enabled?") <;>
  cases hB : boolLikeEnabled (getField d "Inbound Inquiry Enabled?") <;>
  simp [flagsCheck, hss, hin, hA, hB, Option.all]

/-- Claim C7, counterexample: on the raw value "TRUE" the main variant's
boolean-like coercion yields enabled but the simplified variant's yields
disabled, so the two variants do not agree as claimed. -/
theorem c7_counterexample :
    boolLikeEnabled (JSVal.str "TRUE") = true
      ∧ boolLikeEnabledAlt (JSVal.str "TRUE") = false := by
  decide

/-- A value that is a string equal case-insensitively to "TRUE" (its
upper-case form is exactly "TRUE"). -/
def isTrueString (v : JSVal) : Bool :=
  match v with
  | JSVal.str s => jsToUpper s == "TRUE"
  | _ => false

/-- Claim C7 (amended): the two variants agree on a value exactly when it
is not a string equal case-insensitively to "TRUE"; on such strings the
main variant classifies enabled and the simplified variant (which lacks
the case-insensitive "TRUE" clause) classifies disabled.  Both agree
that 1, "1" and true are enabled and everything else is disabled. -/
theorem c7_variants_agree_iff (v : JSVal) :
    (boolLikeEnabled v = boolLikeEnabledAlt v) ↔ isTrueString v = false := by
  cases v <;>
    simp [boolLikeEnabled, boolLikeEnabledAlt, isTrueString]
  rename_i s
  by_cases h1 : s = "1"
  · subst h1
    decide
  · simp [h1]

/-- Claim C9: the broker block excludes a record exactly when
`includeBrokers` is `false`, the Account Owner field is truthy, and its
string form lower-cases to "broker"; a missing, empty, or otherwise
falsy owner is never excluded even with `includeBrokers = false`. -/
theorem c9_broker_semantics (f : Filters) (d : Deal) :
    brokerCheck f d = false ↔
      (f.includeBrokers = some false
        ∧ truthy (getField d "Account Owner") = true
        ∧ jsToLower (jsToString (getField d "Account Owner")) = "broker") := by
  unfold brokerCheck
  cases hB : truthy (getField d "Account Owner") <;>
    simp [hB]

theorem jsToLower_eq_empty_iff (s : String) : jsToLower s = "" ↔ s = "" := by
  constructor
  · intro h
    have h2 : s.data.map Char.toLower = "".data := congrArg String.data h
    simp at h2
    cases s
    simp_all
  · intro h
    subst h
    rfl

/-- Claim C10: with a non-empty status list, the status block resolves
`Deal Intent Status`, falling back to `Deal Intent` when falsy and to the
empty string when both are, and passes iff some listed value equals the
resolved status case-insensitively; hence a record missing both fields
passes iff the list contains the empty string. -/
theorem c10_status_semantics (f : Filters) (d : Deal)
    (hne : f.dealIntentStatuses ≠ []) :
    (statusCheck f d = true ↔
      ∃ s ∈ f.dealIntentStatuses,
        jsToLower (jsToString (statusFieldOf d)) = jsToLower s)
    ∧ (truthy (getField d "Deal Intent Status") = false →
       truthy (getField d "Deal Intent") = false →
       (statusCheck f d = true ↔ "" ∈ f.dealIntentStatuses)) := by
  have hpos : f.dealIntentStatuses.length > 0 := List.length_pos.mpr hne
  constructor
  · unfold statusCheck
    rw [if_pos hpos]
    simp [List.any_eq_true, beq_iff_eq]
  · intro h1 h2
    have hsf : statusFieldOf d = JSVal.str "" := by
      unfold statusFieldOf jsOr
      simp [h1, h2]
    unfold statusCheck
    rw [if_pos hpos, hsf]
    simp only [List.any_eq_true, beq_iff_eq]
    constructor
    · rintro ⟨s, hs, hseq⟩
      have hs0 : jsToLower s = "" := by
        simpa [jsToString, jsToLower] using hseq.symm
      exact ((jsToLower_eq_empty_iff s).mp hs0) ▸ hs
    · intro h
      exact ⟨"", h, rfl⟩

theorem c10_status_semantics_witness :
    statusCheck { dealIntentStatuses := ["Active"] }
      [("Deal Intent Status", JSVal.str "ACTIVE")] = true :=
  (c10_status_semantics { dealIntentStatuses := ["Active"] }
      [("Deal Intent Status", JSVal.str "ACTIVE")] (by decide)).1.mpr
    ⟨"Active", by decide, by decide⟩

/-- Total count across a group-count association list. -/
def sumCounts (l : List (String × Nat)) : Nat := (l.map Prod.snd).sum

theorem sumCounts_bumpCount (acc : List (String × Nat)) (k : String) :
    sumCounts (bumpCount acc k) = sumCounts acc + 1 := by
  induction acc with
  | nil => rfl
  | cons p rest ih =>
    obtain ⟨k', n⟩ := p
    unfold bumpCount
    by_cases h : (k' == k) = true
    · simp [h, sumCounts]
      omega
    · simp only [h]
      simp [sumCounts] at ih ⊢
      omega

theorem counts_fold_sum (l : List Deal) :
    ∀ acc : List (String × Nat),
      sumCounts (l.foldl (fun acc d =>
        let v := getField d "Primary Supply Vertical"
        if truthy v then bumpCount acc (jsToString v) else acc) acc)
      = sumCounts acc
        + l.countP (fun d => truthy (getField d "Primary Supply Vertical")) := by
  induction l with
  | nil => intro acc; simp
  | cons d rest ih =>
    intro acc
    simp only [List.foldl_cons, List.countP_cons]
    by_cases h : truthy (getField d "Primary Supply Vertical") = true
    · rw [ih]
      simp [h, sumCounts_bumpCount]
      omega
    · simp only [Bool.not_eq_true] at h
      rw [ih]
      simp [h]

theorem percSum_map (counts : List (String × Nat)) (n : ℚ) :
    percSum (counts.map fun p =>
      { name := p.1, value := p.2
        percentage := ((p.2 : ℚ) / n) * 100 : ChartEntry })
    = ((sumCounts counts : ℚ) / n) * 100 := by
  induction counts with
  | nil => simp [percSum, sumCounts]
  | cons p rest ih =>
    simp only [List.map_cons, percSum, List.sum_cons, sumCounts] at ih ⊢
    rw [ih]
    push_cast
    ring

theorem percSum_perm {l1 l2 : List ChartEntry} (h : l1.Perm l2) :
    percSum l1 = percSum l2 :=
  (h.map ChartEntry.percentage).sum_eq

/-- Claim C5, counterexample: a non-empty filtered list with one record
lacking a vertical: the only group is Retail with percentage 50, so the
percentages sum to 50, not 100 — records with a falsy grouping value are
skipped in the counts but still included in the denominator. -/
theorem c5_counterexample :
    ([[("Primary Supply Vertical", JSVal.str "Retail")], []] : List Deal) ≠ []
      ∧ percSum (verticalChartData
          [[("Primary Supply Vertical", JSVal.str "Retail")], []]) ≠ 100 := by
  constructor
  · decide
  · simp [verticalChartData, bumpCount, percSum, jsSort, jsSortGo,
      insertSorted, getField, truthy, jsToString]

/-- Claim C5 (amended): the group percentages sum to exactly 100 for
every non-empty filtered list in which each record carries a truthy
grouping value; a record with a falsy value is skipped by the counts but
still counted in the denominator, lowering the sum below 100. -/
theorem c5_percentages_sum (l : List Deal) (h1 : l ≠ [])
    (h2 : ∀ d ∈ l, truthy (getField d "Primary Supply Vertical") = true) :
    percSum (verticalChartData l) = 100 := by
  have hlen : (l.length == 0) = false := by
    simp [List.length_eq_zero, h1]
  unfold verticalChartData
  rw [hlen]
  simp only [Bool.false_eq_true, if_false]
  rw [percSum_perm (jsSort_perm _ _)]
  rw [percSum_map]
  rw [counts_fold_sum l []]
  rw [List.countP_eq_length.mpr h2]
  have hnz : (l.length : ℚ) ≠ 0 := by
    simp [List.length_eq_zero, h1]
  field_simp [sumCounts]

theorem c5_percentages_sum_witness :
    percSum (verticalChartData
      [[("Primary Supply Vertical", JSVal.str "Retail")]]) = 100 :=
  c5_percentages_sum
    [[("Primary Supply Vertical", JSVal.str "Retail")]]
    (by decide) (by decide)

/-- A field value that is a number, or missing (absent property or null
cell) — the values the summary's `|| 0` coercion treats numerically. -/
def numericOrMissing (v : JSVal) : Bool :=
  match v with
  | JSVal.num _ => true
  | JSVal.null => true
  | JSVal.undef => true
  | _ => false

/-- The claim-side reading of one summand: the record's field value as a
number, with a missing field treated as 0. -/
def fieldNumOrZero (d : Deal) (key : String) : ℚ :=
  match getField d key with
  | JSVal.num q => q
  | _ => 0

theorem sumFieldGo_eq_num (key : String) :
    ∀ (l : List Deal) (q0 : ℚ),
      (∀ d ∈ l, numericOrMissing (getField d key) = true) →
      l.foldl (fun s d => jsAdd s (jsOr (getField d key) (JSVal.num 0)))
        (JSVal.num q0)
      = JSVal.num (q0 + (l.map fun d => fieldNumOrZero d key).sum) := by
  intro l
  induction l with
  | nil => intro q0 _; simp
  | cons d rest ih =>
    intro q0 hall
    have hd := hall d (by simp)
    simp only [List.foldl_cons, List.map_cons, List.sum_cons]
    have hstep : jsAdd (JSVal.num q0) (jsOr (getField d key) (JSVal.num 0))
        = JSVal.num (q0 + fieldNumOrZero d key) := by
      unfold fieldNumOrZero
      rcases hv : getField d key with q | s | b | _ | _ | _ <;>
        rw [hv] at hd <;>
        simp [numericOrMissing] at hd <;>
        try (by_cases hq : q = 0)
      · subst hq
        simp [jsOr, truthy, jsAdd, toNumber]
      · simp [jsOr, truthy, hq, jsAdd, toNumber]
      · simp [jsOr, truthy, jsAdd, toNumber]
      · simp [jsOr, truthy, jsAdd, toNumber]
    rw [hstep, ih (q0 + fieldNumOrZero d key)
      (fun x hx => hall x (by simp [hx]))]
    rw [add_assoc]

/-- Claim C8: the summary is the `null` sentinel exactly on the empty
filtered list — never an object of zero totals — and on a non-empty list
whose Revenue and EBITDA values are numbers or missing it is the record
count together with totals and averages in which a missing field counts
as 0. -/
theorem c8_summary_semantics :
    summaryStats ([] : List Deal) = none
    ∧ ∀ (l : List Deal), l ≠ [] →
      (∀ d ∈ l, numericOrMissing (getField d "Revenue") = true) →
      (∀ d ∈ l, numericOrMissing (getField d "EBITDA") = true) →
      summaryStats l = some
        { totalDeals := l.length
          totalRevenue :=
            JSVal.num ((l.map fun d => fieldNumOrZero d "Revenue").sum)
          avgRevenue := JSVal.num
            (((l.map fun d => fieldNumOrZero d "Revenue").sum)
              / (l.length : ℚ))
          totalEBITDA :=
            JSVal.num ((l.map fun d => fieldNumOrZero d "EBITDA").sum)
          avgEBITDA := JSVal.num
            (((l.map fun d => fieldNumOrZero d "EBITDA").sum)
              / (l.length : ℚ)) } := by
  constructor
  · rfl
  · intro l hne hR hE
    have hlen : (l.length == 0) = false := by
      simp [List.length_eq_zero, hne]
    have hnz : (l.length : ℚ) ≠ 0 := by
      simp [List.length_eq_zero, hne]
    have hRs : sumField l "Revenue"
        = JSVal.num ((l.map fun d => fieldNumOrZero d "Revenue").sum) := by
      unfold sumField
      rw [sumFieldGo_eq_num "Revenue" l 0 hR, zero_add]
    have hEs : sumField l "EBITDA"
        = JSVal.num ((l.map fun d => fieldNumOrZero d "EBITDA").sum) := by
      unfold sumField
      rw [sumFieldGo_eq_num "EBITDA" l 0 hE, zero_add]
    unfold summaryStats
    rw [hlen]
    simp only [Bool.false_eq_true, if_false]
    rw [hRs, hEs]
    simp [jsDiv, toNumber, hnz]

theorem c8_summary_semantics_witness :
    summaryStats [[("Revenue", JSVal.num 100)]] = some
      { totalDeals := 1
        totalRevenue := JSVal.num
          (([[("Revenue", JSVal.num 100)]].map
            fun d => fieldNumOrZero d "Revenue").sum)
        avgRevenue := JSVal.num
          ((([[("Revenue", JSVal.num 100)]].map
            fun d => fieldNumOrZero d "Revenue").sum) / (1 : ℚ))
        totalEBITDA := JSVal.num
          (([[("Revenue", JSVal.num 100)]].map
            fun d => fieldNumOrZero d "EBITDA").sum)
        avgEBITDA := JSVal.num
          ((([[("Revenue", JSVal.num 100)]].map
            fun d => fieldNumOrZero d "EBITDA").sum) / (1 : ℚ)) } :=
  c8_summary_semantics.2 [[("Revenue", JSVal.num 100)]]
    (by decide) (by decide) (by decide)
